import Mathlib

/-!
Shallow embedding of the linkedin-jobs-api core pipeline (src/index.js):
the query normalizer/URL builder, the HTML batch parser, the fetch
orchestration loop of `Query.prototype.getJobs`, and the TTL result cache.
Machine-level concerns (axios transport, cheerio tree construction) are
abstracted at the interface boundary: a fetched batch is an abstract
`BatchResult`, and a parsed document is a list of listing `Container`s
holding exactly the strings/attributes the selectors of `parseJobList`
extract.
-/

namespace LinkedinJobsApi

/-- Predicate for JavaScript whitespace (the regexp class backslash-s and
the characters `String.prototype.trim` removes): ASCII whitespace plus the
Unicode space separators, NBSP, BOM and the line/paragraph separators. -/
def isJsWs (c : Char) : Bool :=
  let n := c.toNat
  (n == 0x20) || (n == 0x09) || (n == 0x0A) || (n == 0x0B) || (n == 0x0C) ||
  (n == 0x0D) || (n == 0xA0) || (n == 0x1680) ||
  (0x2000 ≤ n && n ≤ 0x200A) || (n == 0x2028) || (n == 0x2029) ||
  (n == 0x202F) || (n == 0x205F) || (n == 0x3000) || (n == 0xFEFF)

/-- Model of JavaScript `String.prototype.trim` on a character list:
drop whitespace from both ends. -/
def jsTrimList (l : List Char) : List Char :=
  ((l.dropWhile isJsWs).reverse.dropWhile isJsWs).reverse

/-- Model of JS `s.trim()` returning a `String`. -/
def jsTrim (s : String) : String :=
  String.mk (jsTrimList s.data)

/-- Model of the global regexp replacement `replace(/\s+/g, r)`: every
maximal run of whitespace characters is replaced by the single character
`r`.  The boolean flag records whether the previous character was part of
a whitespace run still being consumed. -/
def collapseAux (r : Char) : Bool → List Char → List Char
  | _, [] => []
  | prevWs, c :: cs =>
    if isJsWs c then
      if prevWs then collapseAux r true cs
      else r :: collapseAux r true cs
    else c :: collapseAux r false cs

/-- Model of `s.trim().replace(/\s+/g, "+")`, the keyword/location
normalization performed by the `Query` constructor (src/index.js:53-54). -/
def normalizeField (s : String) : String :=
  String.mk (collapseAux '+' false (jsTrimList s.data))

/-- Model of `s.trim().replace(/\s+/g, " ")`, the salary-text cleanup in
`parseJobList` (src/index.js:266-270). -/
def cleanSalaryText (s : String) : String :=
  String.mk (collapseAux ' ' false (jsTrimList s.data))

/-- Maximal runs of non-whitespace characters of a character list, in
order: the "words" of the string under the JS whitespace class. -/
def wsTokens : List Char → List (List Char)
  | [] => []
  | c :: cs =>
    if isJsWs c then wsTokens cs
    else (c :: cs.takeWhile (fun x => !isJsWs x)) ::
      wsTokens (cs.dropWhile (fun x => !isJsWs x))
termination_by l => l.length
decreasing_by
  · simp only [List.length_cons]
    omega
  · simp only [List.length_cons]
    exact Nat.lt_succ_of_le (List.dropWhile_sublist _).length_le

/-- Modelled from the spec: "the input trimmed with every maximal run of
internal whitespace replaced by a single + character".  On a trimmed
string the maximal internal whitespace runs are exactly the separators
between consecutive words, so this is the words of the trimmed input
joined by a single `'+'`. -/
def specNormalizeField (s : String) : String :=
  String.mk (List.intercalate ['+'] (wsTokens (jsTrimList s.data)))

/-- Query state, after construction (src/index.js:51-63).  `keyword` and
`location` hold the already-normalized values; `limit` and `page` are kept
as naturals here, matching the well-formed states the orchestrator and URL
builder operate on (the raw numeric coercion of the constructor is
modelled separately by `coerceNumber`). -/
structure Query where
  host : String
  keyword : String
  location : String
  dateSincePosted : String
  jobType : String
  remoteFilter : String
  salary : String
  experienceLevel : String
  sortBy : String
  limit : Nat
  page : Nat
deriving DecidableEq

/-- Default query: every field empty / zero, host defaulted, as built by
the constructor from an empty query object. -/
def defaultQuery : Query :=
  ⟨"www.linkedin.com", "", "", "", "", "", "", "", "", 0, 0⟩

/-- Model of JS `String.prototype.toLowerCase` on the characters that can
produce or distinguish table keys: each uppercase ASCII letter maps to its
lowercase form, U+212A (Kelvin sign) maps to "k" (so "PAST WEE" followed
by U+212A reaches the key "past week" exactly as in JS), and every other
character is kept.  Of the remaining Unicode mappings none can
produce a table key: U+0130 lowercases to "i" plus a combining dot, and no
other non-ASCII character lowercases into ASCII; and since this map never
outputs an ASCII uppercase letter and agrees with JS wherever it rewrites,
two inputs equal under it are equal under the JS lowercasing too. -/
def jsToLower (s : String) : String :=
  String.mk (s.data.map (fun c =>
    if 0x41 ≤ c.toNat ∧ c.toNat ≤ 0x5A then Char.ofNat (c.toNat + 32)
    else if c.toNat = 0x212A then 'k'
    else c))

/-- Member names every plain object literal inherits from
`Object.prototype`: a bracket lookup `table[key]` with one of these keys
walks the prototype chain and returns the inherited (truthy) value instead
of `undefined`. -/
def protoNames : List String :=
  ["constructor", "hasOwnProperty", "isPrototypeOf", "propertyIsEnumerable",
   "toLocaleString", "toString", "valueOf", "__defineGetter__",
   "__defineSetter__", "__lookupGetter__", "__lookupSetter__", "__proto__"]

/-- Node (V8) string image of the inherited `Object.prototype` member
named `k`, as `URLSearchParams.append` coerces it: the `__proto__`
accessor yields the prototype object itself (printed "[object Object]"),
`constructor` is the `Object` function, and every other member is a
function printed in native-code form.  Each image is non-empty, matching
the truthiness of the inherited values under ` || ""`. -/
def protoValueString (k : String) : String :=
  if k = "__proto__" then "[object Object]"
  else if k = "constructor" then "function Object() \x7b [native code] \x7d"
  else "function " ++ k ++ "() \x7b [native code] \x7d"

/-- Lookup in a JS plain-object table, `table[key] || ""`: the value of an
own key when one matches; for a key naming an inherited `Object.prototype`
member, the inherited value — truthy, hence kept by ` || ""` and
stringified when appended to the URL — rendered here directly as its
string image; `""` otherwise (`undefined` is falsy). -/
def lookupTable (t : List (String × String)) (k : String) : String :=
  match t.find? (fun p => p.1 == k) with
  | some p => p.2
  | none => if protoNames.contains k then protoValueString k else ""

/-- Table of `getDateSincePosted` (src/index.js:67-71). -/
def dateRange : List (String × String) :=
  [("past month", "r2592000"), ("past week", "r604800"), ("24hr", "r86400")]

/-- Table of `getExperienceLevel` (src/index.js:76-83). -/
def experienceRange : List (String × String) :=
  [("internship", "1"), ("entry level", "2"), ("associate", "3"),
   ("senior", "4"), ("director", "5"), ("executive", "6")]

/-- Table of `getJobType` (src/index.js:88-97). -/
def jobTypeRange : List (String × String) :=
  [("full time", "F"), ("full-time", "F"), ("part time", "P"),
   ("part-time", "P"), ("contract", "C"), ("temporary", "T"),
   ("volunteer", "V"), ("internship", "I")]

/-- Table of `getRemoteFilter` (src/index.js:102-107). -/
def remoteFilterRange : List (String × String) :=
  [("on-site", "1"), ("on site", "1"), ("remote", "2"), ("hybrid", "3")]

/-- Table of `getSalary` (src/index.js:112-118); JS numeric object keys
are strings. -/
def salaryRange : List (String × String) :=
  [("40000", "1"), ("60000", "2"), ("80000", "3"),
   ("100000", "4"), ("120000", "5")]

/-- `getDateSincePosted`: case-insensitive table lookup (src/index.js:66-73). -/
def Query.getDateSincePosted (q : Query) : String :=
  lookupTable dateRange (jsToLower q.dateSincePosted)

/-- `getExperienceLevel`: case-insensitive table lookup (src/index.js:75-85). -/
def Query.getExperienceLevel (q : Query) : String :=
  lookupTable experienceRange (jsToLower q.experienceLevel)

/-- `getJobType`: case-insensitive table lookup (src/index.js:87-99). -/
def Query.getJobType (q : Query) : String :=
  lookupTable jobTypeRange (jsToLower q.jobType)

/-- `getRemoteFilter`: case-insensitive table lookup (src/index.js:101-109). -/
def Query.getRemoteFilter (q : Query) : String :=
  lookupTable remoteFilterRange (jsToLower q.remoteFilter)

/-- `getSalary`: exact-string table lookup — note no `toLowerCase` here
(src/index.js:111-120). -/
def Query.getSalary (q : Query) : String :=
  lookupTable salaryRange q.salary

/-- `getPage` (src/index.js:122-124). -/
def Query.getPage (q : Query) : Nat :=
  q.page * 25

/-- UTF-8 encoding of one character as its list of byte values. -/
def utf8Bytes (c : Char) : List Nat :=
  let n := c.toNat
  if n < 0x80 then [n]
  else if n < 0x800 then [0xC0 + n / 0x40, 0x80 + n % 0x40]
  else if n < 0x10000 then
    [0xE0 + n / 0x1000, 0x80 + (n / 0x40) % 0x40, 0x80 + n % 0x40]
  else
    [0xF0 + n / 0x40000, 0x80 + (n / 0x1000) % 0x40,
     0x80 + (n / 0x40) % 0x40, 0x80 + n % 0x40]

/-- Uppercase hexadecimal digit for a value below 16. -/
def hexDigit (n : Nat) : Char :=
  if n < 10 then Char.ofNat (48 + n) else Char.ofNat (55 + n)

/-- One byte under the `application/x-www-form-urlencoded` serializer used
by `URLSearchParams.toString`: space becomes `'+'`; ASCII alphanumerics
and `*-._` pass through; everything else is percent-encoded. -/
def formUrlencodeByte (n : Nat) : List Char :=
  if n == 0x20 then ['+']
  else if (0x30 ≤ n && n ≤ 0x39) || (0x41 ≤ n && n ≤ 0x5A) ||
      (0x61 ≤ n && n ≤ 0x7A) || n == 0x2A || n == 0x2D || n == 0x2E ||
      n == 0x5F then [Char.ofNat n]
  else ['%', hexDigit (n / 16), hexDigit (n % 16)]

/-- Form-urlencoding of a whole string (UTF-8 bytes, then per-byte
encoding), as `URLSearchParams` applies to each name and value. -/
def formUrlencode (s : String) : String :=
  String.mk ((s.data.flatMap utf8Bytes).flatMap formUrlencodeByte)

/-- The `URLSearchParams` name/value pairs appended by `Query.prototype.url`
for a given start offset, in the source's fixed append order
(src/index.js:126-147). -/
def Query.params (q : Query) (start : Nat) : List (String × String) :=
  (if q.keyword = "" then [] else [("keywords", q.keyword)]) ++
  (if q.location = "" then [] else [("location", q.location)]) ++
  (if q.getDateSincePosted = "" then [] else [("f_TPR", q.getDateSincePosted)]) ++
  (if q.getSalary = "" then [] else [("f_SB2", q.getSalary)]) ++
  (if q.getExperienceLevel = "" then [] else [("f_E", q.getExperienceLevel)]) ++
  (if q.getRemoteFilter = "" then [] else [("f_WT", q.getRemoteFilter)]) ++
  (if q.getJobType = "" then [] else [("f_JT", q.getJobType)]) ++
  [("start", toString (start + q.getPage))] ++
  (if q.sortBy = "recent" then [("sortBy", "DD")]
   else if q.sortBy = "relevant" then [("sortBy", "R")]
   else [])

/-- Serialization of `URLSearchParams.toString()`: each pair rendered as
`name=value` with both sides form-urlencoded, joined by `&`. -/
def renderParams (ps : List (String × String)) : String :=
  String.intercalate "&" (ps.map (fun p => formUrlencode p.1 ++ "=" ++ formUrlencode p.2))

/-- `Query.prototype.url` (src/index.js:126-147): the fixed path against
the host, `?`, then the serialized search params. -/
def Query.url (q : Query) (start : Nat) : String :=
  "https://" ++ q.host ++ "/jobs-guest/jobs/api/seeMoreJobPostings/search?" ++
    renderParams (q.params start)

/-- Model of the constructor coercion `Number(x) || 0` applied to `limit`
and `page` (src/index.js:61-62).  The argument is the value of `Number(x)`
as a rational, `none` standing for `NaN` (non-numeric input); `||` maps the
falsy values `NaN` and `0` to `0` and keeps any other number unchanged. -/
def coerceNumber (n : Option ℚ) : ℚ :=
  match n with
  | none => 0
  | some v => if v = 0 then 0 else v

/-- One listing container (`li` element) as seen through the selectors of
`parseJobList` (src/index.js:252-303): the raw text of each selected child
and the raw attribute values.  An `Option` models a cheerio `.attr()`
result, which is `undefined` when the element or attribute is absent;
`.text()` of an empty selection is the empty string, so text fields are
plain strings. -/
structure Container where
  titleText : String
  subtitleText : String
  locationText : String
  timeDatetime : Option String
  salaryText : String
  linkHref : Option String
  logoUrl : Option String
  listdateText : String
deriving DecidableEq

/-- One job record as returned by `parseJobList` in src/index.js.  `date`
is an `Option` because the source stores `dateElement.attr("datetime")`
without a fallback (src/index.js:264-265, 286): it is `undefined` (`none`)
when the container has no machine-readable timestamp.  All other optional
fields carry the ` || ""` / ` || "Not specified"` fallbacks. -/
structure Job where
  position : String
  company : String
  location : String
  date : Option String
  salary : String
  jobUrl : String
  companyLogo : String
  agoTime : String
deriving DecidableEq

/-- The record built from one container once it passes the validity check
(src/index.js:282-291). -/
def buildJob (c : Container) : Job :=
  { position := jsTrim c.titleText
    company := jsTrim c.subtitleText
    location := jsTrim c.locationText
    date := c.timeDatetime
    salary := if cleanSalaryText c.salaryText = "" then "Not specified"
              else cleanSalaryText c.salaryText
    jobUrl := c.linkHref.getD ""
    companyLogo := c.logoUrl.getD ""
    agoTime := jsTrim c.listdateText }

/-- Per-container extraction: `null` (here `none`) when the trimmed
position or company is empty (`if (!position || !company) return null`,
src/index.js:277-280), otherwise the built record. -/
def extractJob (c : Container) : Option Job :=
  if jsTrim c.titleText = "" ∨ jsTrim c.subtitleText = "" then none
  else some (buildJob c)

/-- `parseJobList` over the listing containers of a document in document
order: map extraction over every container and drop the `null`s
(`.map(...).get().filter(Boolean)`, src/index.js:257-298). -/
def parseJobList (doc : List Container) : List Job :=
  doc.filterMap extractJob

/-- Outcome of one `fetchJobBatch` call as the `getJobs` loop observes it:
either the parsed record list of a 200 response, or a raised error
(transport failure, non-200 status, rate limit). -/
inductive BatchResult where
  | success (jobs : List Job)
  | failure
deriving DecidableEq

/-- Fixed batch size of the loop (src/index.js:152). -/
def BATCH_SIZE : Nat := 25

/-- Consecutive-failure ceiling of the loop (src/index.js:155). -/
def MAX_CONSECUTIVE_ERRORS : Nat := 3

/-- One iteration of the `getJobs` while-loop as recorded for analysis:
the start offset requested, the observed batch result, and the backoff
delay (in ms) slept after a failed iteration (`none` when the iteration
did not back off — success, or loop exit). -/
structure Step where
  start : Nat
  result : BatchResult
  backoffMs : Option Nat
deriving DecidableEq

/-- The `while (hasMore)` loop of `Query.prototype.getJobs`
(src/index.js:149-216), run against a trace of batch outcomes consumed in
request order.  State: accumulated jobs, current start offset, current
consecutive-error count.  Returns the jobs the function returns together
with the list of performed iterations.  An exhausted trace models an
environment observed only that far: the run is cut off and the accumulator
returned.  Mirrored branch by branch: a zero-record success breaks out of
the loop; a success appends, truncates to `limit` and stops when a positive
limit is reached, else resets the error count and advances `start` by 25;
a failure increments the error count, stops at the ceiling, else sleeps
`2^consecutiveErrors` seconds and retries the same offset. -/
def getJobsRun (limit : Nat) :
    List BatchResult → List Job → Nat → Nat → List Job × List Step
  | [], allJobs, _, _ => (allJobs, [])
  | r :: tr, allJobs, start, consecutiveErrors =>
    match r with
    | .success jobs =>
      if jobs.length = 0 then
        (allJobs, [⟨start, r, none⟩])
      else
        if limit ≠ 0 ∧ limit ≤ (allJobs ++ jobs).length then
          ((allJobs ++ jobs).take limit, [⟨start, r, none⟩])
        else
          let res := getJobsRun limit tr (allJobs ++ jobs) (start + BATCH_SIZE) 0
          (res.1, ⟨start, r, none⟩ :: res.2)
    | .failure =>
      if MAX_CONSECUTIVE_ERRORS ≤ consecutiveErrors + 1 then
        (allJobs, [⟨start, r, none⟩])
      else
        let res := getJobsRun limit tr allJobs start (consecutiveErrors + 1)
        (res.1, ⟨start, r, some (2 ^ (consecutiveErrors + 1) * 1000)⟩ :: res.2)

/-- The start offset the loop requests after observing `r` at offset `s`:
unchanged on a failure or a terminal empty batch, advanced by the batch
size on a non-empty success. -/
def nextStart (s : Nat) : BatchResult → Nat
  | .failure => s
  | .success jobs => if jobs.length = 0 then s else s + BATCH_SIZE

/-- Chained-start property of a step log: the first request uses the
current offset and each later request uses the offset determined by the
previous step — so the offset is retried on failure and advances only on a
successful non-empty batch. -/
def StartsChain : Nat → List Step → Prop
  | _, [] => True
  | s, st :: rest => st.start = s ∧ StartsChain (nextStart s st.result) rest

/-- Backoff discipline of a step log, given the consecutive-error count on
entry: a failed iteration below the ceiling sleeps exactly
`2^consecutiveErrors` seconds (counter already incremented) and the run
continues; a failure reaching the ceiling sleeps nothing and is the last
iteration; a successful iteration sleeps no backoff and resets the
counter. -/
def BackoffOK : Nat → List Step → Prop
  | _, [] => True
  | e, st :: rest =>
    match st.result with
    | .failure =>
      if e + 1 < MAX_CONSECUTIVE_ERRORS then
        st.backoffMs = some (2 ^ (e + 1) * 1000) ∧ BackoffOK (e + 1) rest
      else
        st.backoffMs = none ∧ rest = []
    | .success _ => st.backoffMs = none ∧ BackoffOK 0 rest

/-- One entry of the in-memory result cache: the stored record list and
the `Date.now()` stamp taken by `set` (src/index.js:15-20). -/
structure CacheItem where
  data : List Job
  timestamp : Nat
deriving DecidableEq

/-- The `JobCache` state: the underlying `Map` as an insertion-ordered
association list (src/index.js:9-40). -/
structure JobCache where
  entries : List (String × CacheItem)
deriving DecidableEq

/-- The fixed TTL of one hour in milliseconds (src/index.js:12). -/
def TTL : Nat := 1000 * 60 * 60

/-- `JobCache.set` at time `now`: `Map.set` overwrites an existing key in
place and appends a new key (src/index.js:15-20). -/
def JobCache.set (c : JobCache) (now : Nat) (key : String) (value : List Job) :
    JobCache :=
  if c.entries.any (fun p => p.1 == key) then
    ⟨c.entries.map (fun p => if p.1 == key then (key, ⟨value, now⟩) else p)⟩
  else
    ⟨c.entries ++ [(key, ⟨value, now⟩)]⟩

/-- `Map.get` on the underlying map: the stored item, if any. -/
def JobCache.lookup (c : JobCache) (key : String) : Option CacheItem :=
  (c.entries.find? (fun p => p.1 == key)).map (fun p => p.2)

/-- `Map.delete` on the underlying map. -/
def JobCache.del (c : JobCache) (key : String) : JobCache :=
  ⟨c.entries.filter (fun p => p.1 != key)⟩

/-- `JobCache.get` at time `now` (src/index.js:22-30): a miss on an absent
key; on a present key whose age exceeds the TTL, delete the entry and
report a miss; otherwise return the stored data.  Returns the reported
value together with the cache state after the call (the deletion side
effect). -/
def JobCache.get (c : JobCache) (now : Nat) (key : String) :
    Option (List Job) × JobCache :=
  match c.lookup key with
  | none => (none, c)
  | some item =>
    if TTL < now - item.timestamp then (none, c.del key)
    else (some item.data, c)

/-- `JobCache.clear`, the periodic sweep: delete every entry whose age
exceeds the TTL (src/index.js:32-39). -/
def JobCache.sweep (c : JobCache) (now : Nat) : JobCache :=
  ⟨c.entries.filter (fun p => !(TTL < now - p.2.timestamp))⟩

/-- A sample job record used to instantiate witness statements. -/
def sampleJob : Job :=
  ⟨"Engineer", "Acme", "", none, "Not specified", "", "", ""⟩

lemma startsChain_getJobsRun (limit : Nat) (tr : List BatchResult) :
    ∀ (a : List Job) (s e : Nat), StartsChain s (getJobsRun limit tr a s e).2 := by
  induction tr with
  | nil => intro a s e; exact trivial
  | cons r tr ih =>
    intro a s e
    cases r with
    | success jobs =>
      by_cases h0 : jobs.length = 0
      · simp only [getJobsRun, if_pos h0]
        exact ⟨rfl, trivial⟩
      · by_cases hl : limit ≠ 0 ∧ limit ≤ (a ++ jobs).length
        · simp only [getJobsRun, if_neg h0, if_pos hl]
          exact ⟨rfl, trivial⟩
        · simp only [getJobsRun, if_neg h0, if_neg hl]
          refine ⟨rfl, ?_⟩
          show StartsChain (nextStart s (.success jobs))
            (getJobsRun limit tr (a ++ jobs) (s + BATCH_SIZE) 0).2
          rw [show nextStart s (.success jobs) = s + BATCH_SIZE by
            simp [nextStart, h0]]
          exact ih (a ++ jobs) (s + BATCH_SIZE) 0
    | failure =>
      by_cases hc : MAX_CONSECUTIVE_ERRORS ≤ e + 1
      · simp only [getJobsRun, if_pos hc]
        exact ⟨rfl, trivial⟩
      · simp only [getJobsRun, if_neg hc]
        exact ⟨rfl, ih a s (e + 1)⟩

lemma backoffOK_getJobsRun (limit : Nat) (tr : List BatchResult) :
    ∀ (a : List Job) (s e : Nat), BackoffOK e (getJobsRun limit tr a s e).2 := by
  induction tr with
  | nil => intro a s e; exact trivial
  | cons r tr ih =>
    intro a s e
    cases r with
    | success jobs =>
      by_cases h0 : jobs.length = 0
      · simp only [getJobsRun, if_pos h0]
        exact ⟨rfl, trivial⟩
      · by_cases hl : limit ≠ 0 ∧ limit ≤ (a ++ jobs).length
        · simp only [getJobsRun, if_neg h0, if_pos hl]
          exact ⟨rfl, trivial⟩
        · simp only [getJobsRun, if_neg h0, if_neg hl]
          exact ⟨rfl, ih (a ++ jobs) (s + BATCH_SIZE) 0⟩
    | failure =>
      by_cases hc : MAX_CONSECUTIVE_ERRORS ≤ e + 1
      · have hlt : ¬ (e + 1 < MAX_CONSECUTIVE_ERRORS) := by omega
        simp only [getJobsRun, if_pos hc]
        show BackoffOK e [⟨s, .failure, none⟩]
        simp [BackoffOK, if_neg hlt]
      · have hlt : e + 1 < MAX_CONSECUTIVE_ERRORS := by omega
        simp only [getJobsRun, if_neg hc]
        show BackoffOK e (⟨s, .failure, some (2 ^ (e + 1) * 1000)⟩ ::
          (getJobsRun limit tr a s (e + 1)).2)
        simp only [BackoffOK, if_pos hlt]
        refine ⟨by simp, ih a s (e + 1)⟩

/-- Claim C1: in every run of the `getJobs` loop, a successful batch with
zero parsed records terminates the aggregation at that batch: the records
accumulated so far are returned unchanged, no further batch is requested
(the step log stops at that single zero-record step, whatever the rest of
the environment trace would have offered), and no backoff is slept — the
zero-record batch is not treated as an error. -/
theorem claim_c1 (limit : Nat) (tr : List BatchResult) (a : List Job)
    (s e : Nat) :
    getJobsRun limit (.success [] :: tr) a s e =
      (a, [⟨s, .success [], none⟩]) := by
  simp [getJobsRun]

/-- Claim C2: three consecutive batch failures starting from a reset error
counter make the loop return exactly the previously accumulated records,
after backoffs of 2^1 and 2^2 seconds for the first two failures and none
for the third; moreover in every run the requested offsets form the chain
in which a failure retries the same offset (start advances only on a
successful non-empty batch), and every failure below the ceiling is
followed by a `2^consecutiveErrors`-second backoff while a failure at the
ceiling ends the run. -/
theorem claim_c2 (limit : Nat) (tr : List BatchResult) (a : List Job)
    (s e : Nat) :
    getJobsRun limit (.failure :: .failure :: .failure :: tr) a s 0 =
      (a, [⟨s, .failure, some 2000⟩, ⟨s, .failure, some 4000⟩,
           ⟨s, .failure, none⟩]) ∧
    StartsChain s (getJobsRun limit tr a s e).2 ∧
    BackoffOK e (getJobsRun limit tr a s e).2 := by
  refine ⟨?_, startsChain_getJobsRun limit tr a s e,
    backoffOK_getJobsRun limit tr a s e⟩
  norm_num [getJobsRun, MAX_CONSECUTIVE_ERRORS]

lemma getJobsRun_allSuccess (limit : Nat) :
    ∀ (batches : List (List Job)) (a : List Job) (s : Nat),
      0 < limit → a.length < limit → (∀ b ∈ batches, b ≠ []) →
      (getJobsRun limit (batches.map .success ++ [.success []]) a s 0).1 =
        (a ++ batches.flatten).take limit := by
  intro batches
  induction batches with
  | nil =>
    intro a s _ ha _
    simp only [List.map_nil, List.nil_append, getJobsRun, List.length_nil,
      if_pos rfl, List.flatten_nil, List.append_nil]
    exact (List.take_of_length_le (Nat.le_of_lt ha)).symm
  | cons b bs ih =>
    intro a s hpos ha hne
    have hb : b ≠ [] := hne b (List.mem_cons_self b bs)
    have hb0 : ¬ b.length = 0 := fun h => hb (List.length_eq_zero.mp h)
    by_cases hl : limit ≠ 0 ∧ limit ≤ (a ++ b).length
    · simp only [List.map_cons, List.cons_append, getJobsRun, if_neg hb0,
        if_pos hl]
      rw [List.flatten_cons, ← List.append_assoc,
        List.take_append_of_le_length hl.2]
    · have hlt : (a ++ b).length < limit := by
        rcases Nat.lt_or_ge ((a ++ b).length) limit with h | h
        · exact h
        · exact absurd ⟨Nat.pos_iff_ne_zero.mp hpos, h⟩ hl
      simp only [List.map_cons, List.cons_append, getJobsRun, if_neg hb0,
        if_neg hl]
      rw [List.flatten_cons, ← List.append_assoc]
      exact ih (a ++ b) (s + BATCH_SIZE) hpos hlt
        (fun x hx => hne x (List.mem_cons_of_mem _ hx))

/-- Claim C5: when every batch fetch succeeds — modelled as a trace of
successful non-empty batches followed by the empty end-of-results batch —
the `getJobs` loop with a positive limit N returns exactly the first
min(N, totalAvailable) records of the concatenated batches in source
order, truncating the final fetched batch when the accumulator reaches or
passes N. -/
theorem claim_c5 (batches : List (List Job)) (limit : Nat)
    (hpos : 0 < limit) (hne : ∀ b ∈ batches, b ≠ []) :
    (getJobsRun limit (batches.map .success ++ [.success []]) [] 0 0).1 =
      batches.flatten.take limit ∧
    ((getJobsRun limit (batches.map .success ++ [.success []]) [] 0 0).1).length =
      min limit batches.flatten.length := by
  have h := getJobsRun_allSuccess limit batches [] 0 hpos (by simpa using hpos) hne
  simp only [List.nil_append] at h
  exact ⟨h, by rw [h, List.length_take]⟩

/-- Witness for claim C5 at a concrete two-batch environment with limit 2:
the second batch overshoots the limit and is truncated. -/
theorem claim_c5_witness :
    0 < 2 ∧ (∀ b ∈ [[sampleJob], [sampleJob, sampleJob]], b ≠ ([] : List Job)) ∧
    (getJobsRun 2 ([[sampleJob], [sampleJob, sampleJob]].map .success ++
        [.success []]) [] 0 0).1 =
      [[sampleJob], [sampleJob, sampleJob]].flatten.take 2 :=
  ⟨by decide, by decide,
    (claim_c5 [[sampleJob], [sampleJob, sampleJob]] 2 (by decide) (by decide)).1⟩

lemma find?_mapReplace (key : String) (item : CacheItem) :
    ∀ l : List (String × CacheItem), l.any (fun p => p.1 == key) →
      (l.map (fun p => if p.1 == key then (key, item) else p)).find?
        (fun p => p.1 == key) = some (key, item) := by
  intro l
  induction l with
  | nil => intro h; simp at h
  | cons p rest ih =>
    intro h
    by_cases hp : p.1 == key
    · simp [List.find?, hp]
    · have hr : rest.any (fun p => p.1 == key) := by
        rcases List.any_eq_true.mp h with ⟨x, hx, hxk⟩
        rcases List.mem_cons.mp hx with rfl | hx'
        · exact absurd hxk (by simpa using hp)
        · exact List.any_eq_true.mpr ⟨x, hx', hxk⟩
      simpa [List.find?, hp, if_neg hp] using ih hr

lemma find?_appendNew (key : String) (item : CacheItem) :
    ∀ l : List (String × CacheItem), ¬ l.any (fun p => p.1 == key) →
      (l ++ [(key, item)]).find? (fun p => p.1 == key) = some (key, item) := by
  intro l
  induction l with
  | nil => intro _; simp [List.find?]
  | cons p rest ih =>
    intro h
    have hp : ¬ (p.1 == key) := fun hk =>
      h (List.any_eq_true.mpr ⟨p, List.mem_cons_self _ _, hk⟩)
    have hr : ¬ rest.any (fun p => p.1 == key) := fun hk => by
      rcases List.any_eq_true.mp hk with ⟨x, hx, hxk⟩
      exact h (List.any_eq_true.mpr ⟨x, List.mem_cons_of_mem _ hx, hxk⟩)
    simpa [List.find?, hp] using ih hr

lemma lookup_set (c : JobCache) (t : Nat) (key : String) (v : List Job) :
    (c.set t key v).lookup key = some ⟨v, t⟩ := by
  unfold JobCache.set JobCache.lookup
  by_cases h : c.entries.any (fun p => p.1 == key)
  · rw [if_pos h]
    simp only [find?_mapReplace key ⟨v, t⟩ c.entries h, Option.map_some']
  · rw [if_neg h]
    simp only [find?_appendNew key ⟨v, t⟩ c.entries h, Option.map_some']

lemma lookup_del (c : JobCache) (key : String) :
    (c.del key).lookup key = none := by
  unfold JobCache.del JobCache.lookup
  rw [List.find?_eq_none.mpr]
  · rfl
  · intro p hp
    have := (List.mem_filter.mp hp).2
    simpa using this

/-- Claim C10: after `set` stamps a key at time `t1`, a `get` at any time
`t2` whose elapsed age `t2 - t1` is within the one-hour TTL returns the
stored record sequence and leaves the cache unchanged; once the age
exceeds the TTL, the same `get` reports a miss and deletes the entry as a
side effect of the read — no sweep is involved. -/
theorem claim_c10 (c : JobCache) (t1 t2 : Nat) (key : String) (v : List Job) :
    (t2 - t1 ≤ TTL →
      (c.set t1 key v).get t2 key = (some v, c.set t1 key v)) ∧
    (TTL < t2 - t1 →
      ((c.set t1 key v).get t2 key).1 = none ∧
      (((c.set t1 key v).get t2 key).2).lookup key = none) := by
  have hl := lookup_set c t1 key v
  constructor
  · intro h
    simp only [JobCache.get, hl]
    rw [if_neg (show ¬ TTL < t2 - t1 by omega)]
  · intro h
    simp only [JobCache.get, hl]
    rw [if_pos (show TTL < t2 - t1 by omega)]
    exact ⟨rfl, lookup_del _ _⟩

/-- Witness for claim C10: a key stored at time 0 into the empty cache is
a hit when read 10 ms later and an expired miss (with the entry removed)
when read one millisecond past the TTL. -/
theorem claim_c10_witness :
    ((10 - 0 ≤ TTL) ∧
      ((JobCache.mk []).set 0 "k" [sampleJob]).get 10 "k" =
        (some [sampleJob], (JobCache.mk []).set 0 "k" [sampleJob])) ∧
    ((TTL < 3600001 - 0) ∧
      (((JobCache.mk []).set 0 "k" [sampleJob]).get 3600001 "k").1 = none ∧
      ((((JobCache.mk []).set 0 "k" [sampleJob]).get 3600001 "k").2).lookup "k" =
        none) :=
  ⟨⟨by decide, (claim_c10 ⟨[]⟩ 0 10 "k" [sampleJob]).1 (by decide)⟩,
   ⟨by decide, (claim_c10 ⟨[]⟩ 0 3600001 "k" [sampleJob]).2 (by decide)⟩⟩

/-- Claim C8, counterexample: the claim asserts every numeric input to the
`limit`/`page` coercion yields a non-negative integer, but
`Number(x) || 0` keeps a negative number unchanged: input −5 is stored as
−5, which is negative. -/
theorem claim_c8_cex :
    coerceNumber (some (-5 : ℚ)) = -5 ∧ ¬ (0 ≤ coerceNumber (some (-5 : ℚ))) := by
  norm_num [coerceNumber]

/-- Claim C8 as amended: `limit` and `page` are coerced by
`Number(x) || 0`, which maps non-numeric input (NaN) and 0 to 0 and keeps
every other numeric value unchanged — including negative or fractional
values, which are neither clamped to non-negative nor rounded to an
integer.  The last conjunct pins the value: every nonzero numeric input is
stored exactly as itself. -/
theorem claim_c8 :
    coerceNumber none = 0 ∧ coerceNumber (some 0) = 0 ∧
    ∀ v : ℚ, v ≠ 0 → coerceNumber (some v) = v := by
  refine ⟨rfl, by simp [coerceNumber], ?_⟩
  intro v hv
  simp [coerceNumber, hv]

/-- Witness for claim C8: the nonzero-preservation conjunct instantiated
at the negative input −5 and the fractional input 3/2. -/
theorem claim_c8_witness :
    ((-5 : ℚ) ≠ 0 ∧ coerceNumber (some (-5 : ℚ)) = -5) ∧
    ((3 / 2 : ℚ) ≠ 0 ∧ coerceNumber (some (3 / 2 : ℚ)) = 3 / 2) :=
  ⟨⟨by norm_num, claim_c8.2.2 (-5) (by norm_num)⟩,
   ⟨by norm_num, claim_c8.2.2 (3 / 2) (by norm_num)⟩⟩

/-- A listing container whose markup has a title and a company but no
machine-readable `datetime` attribute on a `time` element. -/
def c4Container : Container :=
  ⟨"Engineer", "Acme", "", none, "", none, none, ""⟩

/-- Claim C4, evaluation at the failing input: `parseJobList` on a listing
with a valid position and company but no `datetime` attribute emits a
record whose `date` field is `undefined` (`none`), because the source
stores `dateElement.attr("datetime")` without the ` || ""` fallback every
other optional field receives — contradicting the claim (and the README)
that every emitted field is a string. -/
theorem claim_c4 :
    parseJobList [c4Container] =
      [⟨"Engineer", "Acme", "", none, "Not specified", "", "", ""⟩] ∧
    ∃ j ∈ parseJobList [c4Container], j.date = none := by
  constructor
  · decide
  · exact ⟨⟨"Engineer", "Acme", "", none, "Not specified", "", "", ""⟩,
      by decide, rfl⟩

/-- Claim C3: `parseJobList` emits a record for a listing container if and
only if both the extracted position and company are non-empty after
trimming — the output is exactly the containers passing that validity
check, in document order, mapped through the field extraction. -/
theorem claim_c3 (doc : List Container) :
    parseJobList doc =
      (doc.filter (fun c =>
        !(jsTrim c.titleText == "") && !(jsTrim c.subtitleText == ""))).map
        buildJob := by
  induction doc with
  | nil => rfl
  | cons c cs ih =>
    by_cases h : jsTrim c.titleText = "" ∨ jsTrim c.subtitleText = ""
    · have hb : (!(jsTrim c.titleText == "") &&
          !(jsTrim c.subtitleText == "")) = false := by
        rcases h with h | h <;> simp [h]
      simp [parseJobList, extractJob, if_pos h, List.filter_cons, hb] at ih ⊢
      exact ih
    · have hb : (!(jsTrim c.titleText == "") &&
          !(jsTrim c.subtitleText == "")) = true := by
        push_neg at h
        simp [h.1, h.2]
      simp [parseJobList, extractJob, if_neg h, List.filter_cons, hb] at ih ⊢
      exact ih

lemma lookupTable_eq_empty {t : List (String × String)} {k : String}
    (h : t.find? (fun p => p.1 == k) = none)
    (hp : protoNames.contains k = false) : lookupTable t k = "" := by
  simp only [lookupTable, h, hp, Bool.false_eq_true, if_false]

lemma url_eq_of_getters (q q' : Query) (s : Nat)
    (hh : q.host = q'.host) (hk : q.keyword = q'.keyword)
    (hl : q.location = q'.location)
    (hd : q.getDateSincePosted = q'.getDateSincePosted)
    (hs : q.getSalary = q'.getSalary)
    (he : q.getExperienceLevel = q'.getExperienceLevel)
    (hr : q.getRemoteFilter = q'.getRemoteFilter)
    (hj : q.getJobType = q'.getJobType)
    (hp : q.page = q'.page) (hsort : q.sortBy = q'.sortBy) :
    Query.url q s = Query.url q' s := by
  simp only [Query.url, Query.params, Query.getPage, hh, hk, hl, hd, hs, he,
    hr, hj, hp, hsort]

lemma url_sortBy_other (q : Query) (s : Nat) (v : String)
    (h1 : v ≠ "recent") (h2 : v ≠ "relevant") :
    Query.url {q with sortBy := v} s = Query.url {q with sortBy := ""} s := by
  simp [Query.url, Query.params, Query.getDateSincePosted, Query.getSalary,
    Query.getExperienceLevel, Query.getRemoteFilter, Query.getJobType,
    Query.getPage, h1, h2]

/-- Claim C6, counterexample: the input "constructor" matches no lookup
key of the dateSincePosted table, yet the built URL is not the URL of the
empty field: the JS bracket lookup walks the prototype chain, finds the
inherited `Object.prototype.constructor` — truthy — so ` || ""` keeps it
and the builder appends `f_TPR` with its stringification. -/
theorem claim_c6_cex :
    dateRange.find? (fun p => p.1 == jsToLower "constructor") = none ∧
    Query.url {defaultQuery with dateSincePosted := "constructor"} 0 ≠
      Query.url {defaultQuery with dateSincePosted := ""} 0 := by
  constructor
  · decide
  · decide

/-- Claim C6 as amended: for every enum filter field, an input value
matching no lookup key yields, at every start offset, a URL byte-identical
to the URL built with that field empty, and no error is raised — except
when the input names an inherited `Object.prototype` member: for the four
lower-cased fields an input lower-casing to "constructor" or "__proto__"
(the inherited names no lower-cased string can otherwise spell), and for
the exact-matched salary field any of the inherited member names verbatim;
those inputs leak the stringified inherited value into the URL (still
raising no error).  sortBy, compared by `===` rather than looked up,
degrades to the omitted parameter for every value other than "recent" and
"relevant". -/
theorem claim_c6 :
    (∀ (q : Query) (s : Nat) (v : String),
      dateRange.find? (fun p => p.1 == (jsToLower v)) = none →
      protoNames.contains (jsToLower v) = false →
      Query.url {q with dateSincePosted := v} s =
        Query.url {q with dateSincePosted := ""} s) ∧
    (∀ (q : Query) (s : Nat) (v : String),
      experienceRange.find? (fun p => p.1 == (jsToLower v)) = none →
      protoNames.contains (jsToLower v) = false →
      Query.url {q with experienceLevel := v} s =
        Query.url {q with experienceLevel := ""} s) ∧
    (∀ (q : Query) (s : Nat) (v : String),
      jobTypeRange.find? (fun p => p.1 == (jsToLower v)) = none →
      protoNames.contains (jsToLower v) = false →
      Query.url {q with jobType := v} s =
        Query.url {q with jobType := ""} s) ∧
    (∀ (q : Query) (s : Nat) (v : String),
      remoteFilterRange.find? (fun p => p.1 == (jsToLower v)) = none →
      protoNames.contains (jsToLower v) = false →
      Query.url {q with remoteFilter := v} s =
        Query.url {q with remoteFilter := ""} s) ∧
    (∀ (q : Query) (s : Nat) (v : String),
      salaryRange.find? (fun p => p.1 == v) = none →
      protoNames.contains v = false →
      Query.url {q with salary := v} s =
        Query.url {q with salary := ""} s) ∧
    (∀ (q : Query) (s : Nat) (v : String),
      v ≠ "recent" → v ≠ "relevant" →
      Query.url {q with sortBy := v} s =
        Query.url {q with sortBy := ""} s) := by
  refine ⟨?_, ?_, ?_, ?_, ?_, ?_⟩
  · intro q s v h hp
    refine url_eq_of_getters _ _ s rfl rfl rfl ?_ rfl rfl rfl rfl rfl rfl
    show lookupTable dateRange (jsToLower v) = lookupTable dateRange (jsToLower "")
    rw [lookupTable_eq_empty h hp, lookupTable_eq_empty (by decide) (by decide)]
  · intro q s v h hp
    refine url_eq_of_getters _ _ s rfl rfl rfl rfl rfl ?_ rfl rfl rfl rfl
    show lookupTable experienceRange (jsToLower v) =
      lookupTable experienceRange (jsToLower "")
    rw [lookupTable_eq_empty h hp, lookupTable_eq_empty (by decide) (by decide)]
  · intro q s v h hp
    refine url_eq_of_getters _ _ s rfl rfl rfl rfl rfl rfl rfl ?_ rfl rfl
    show lookupTable jobTypeRange (jsToLower v) = lookupTable jobTypeRange (jsToLower "")
    rw [lookupTable_eq_empty h hp, lookupTable_eq_empty (by decide) (by decide)]
  · intro q s v h hp
    refine url_eq_of_getters _ _ s rfl rfl rfl rfl rfl rfl ?_ rfl rfl rfl
    show lookupTable remoteFilterRange (jsToLower v) =
      lookupTable remoteFilterRange (jsToLower "")
    rw [lookupTable_eq_empty h hp, lookupTable_eq_empty (by decide) (by decide)]
  · intro q s v h hp
    refine url_eq_of_getters _ _ s rfl rfl rfl rfl ?_ rfl rfl rfl rfl rfl
    show lookupTable salaryRange v = lookupTable salaryRange ""
    rw [lookupTable_eq_empty h hp, lookupTable_eq_empty (by decide) (by decide)]
  · intro q s v h1 h2
    exact url_sortBy_other q s v h1 h2

/-- Witness for claim C6: one concrete unrecognized, non-inherited value
per enum field produces the same URL as the empty field on the default
query at start 0. -/
theorem claim_c6_witness :
    (dateRange.find? (fun p => p.1 == (jsToLower "yesterday")) = none ∧
      protoNames.contains (jsToLower "yesterday") = false ∧
      Query.url {defaultQuery with dateSincePosted := "yesterday"} 0 =
        Query.url {defaultQuery with dateSincePosted := ""} 0) ∧
    (experienceRange.find? (fun p => p.1 == (jsToLower "ninja")) = none ∧
      protoNames.contains (jsToLower "ninja") = false ∧
      Query.url {defaultQuery with experienceLevel := "ninja"} 0 =
        Query.url {defaultQuery with experienceLevel := ""} 0) ∧
    (jobTypeRange.find? (fun p => p.1 == (jsToLower "freelance")) = none ∧
      protoNames.contains (jsToLower "freelance") = false ∧
      Query.url {defaultQuery with jobType := "freelance"} 0 =
        Query.url {defaultQuery with jobType := ""} 0) ∧
    (remoteFilterRange.find? (fun p => p.1 == (jsToLower "moon")) = none ∧
      protoNames.contains (jsToLower "moon") = false ∧
      Query.url {defaultQuery with remoteFilter := "moon"} 0 =
        Query.url {defaultQuery with remoteFilter := ""} 0) ∧
    (salaryRange.find? (fun p => p.1 == "50000") = none ∧
      protoNames.contains "50000" = false ∧
      Query.url {defaultQuery with salary := "50000"} 0 =
        Query.url {defaultQuery with salary := ""} 0) ∧
    ("quickest" ≠ "recent" ∧ "quickest" ≠ "relevant" ∧
      Query.url {defaultQuery with sortBy := "quickest"} 0 =
        Query.url {defaultQuery with sortBy := ""} 0) :=
  ⟨⟨by decide, by decide,
    claim_c6.1 defaultQuery 0 "yesterday" (by decide) (by decide)⟩,
   ⟨by decide, by decide,
    claim_c6.2.1 defaultQuery 0 "ninja" (by decide) (by decide)⟩,
   ⟨by decide, by decide,
    claim_c6.2.2.1 defaultQuery 0 "freelance" (by decide) (by decide)⟩,
   ⟨by decide, by decide,
    claim_c6.2.2.2.1 defaultQuery 0 "moon" (by decide) (by decide)⟩,
   ⟨by decide, by decide,
    claim_c6.2.2.2.2.1 defaultQuery 0 "50000" (by decide) (by decide)⟩,
   ⟨by decide, by decide,
    claim_c6.2.2.2.2.2 defaultQuery 0 "quickest" (by decide) (by decide)⟩⟩

/-- Claim C7, counterexample: the claim requires `sortBy` "recent" in any
letter case to yield `sortBy=DD`, but the source compares `sortBy` with
`===` (src/index.js:143-144), so "Recent" behaves like an unknown value:
the built URL equals the one with `sortBy` empty, and differs from the one
for lowercase "recent". -/
theorem claim_c7_cex :
    Query.url {defaultQuery with sortBy := "Recent"} 0 =
      Query.url {defaultQuery with sortBy := ""} 0 ∧
    Query.url {defaultQuery with sortBy := "recent"} 0 ≠
      Query.url {defaultQuery with sortBy := "Recent"} 0 := by
  constructor
  · decide
  · decide

/-- Claim C7 as amended: for the four case-insensitively matched enum
fields (dateSincePosted, experienceLevel, jobType, remoteFilter) any two
values equal up to lower-casing — in particular any letter case of a
recognized value and its lowercase canonical form — yield identical URLs;
`sortBy` however is matched case-sensitively: exactly "recent" appends
`sortBy=DD` and exactly "relevant" appends `sortBy=R`, while any other
value, including "Recent", omits the parameter. -/
theorem claim_c7 :
    (∀ (q : Query) (s : Nat) (v w : String), (jsToLower v) = (jsToLower w) →
      Query.url {q with dateSincePosted := v} s =
        Query.url {q with dateSincePosted := w} s) ∧
    (∀ (q : Query) (s : Nat) (v w : String), (jsToLower v) = (jsToLower w) →
      Query.url {q with experienceLevel := v} s =
        Query.url {q with experienceLevel := w} s) ∧
    (∀ (q : Query) (s : Nat) (v w : String), (jsToLower v) = (jsToLower w) →
      Query.url {q with jobType := v} s =
        Query.url {q with jobType := w} s) ∧
    (∀ (q : Query) (s : Nat) (v w : String), (jsToLower v) = (jsToLower w) →
      Query.url {q with remoteFilter := v} s =
        Query.url {q with remoteFilter := w} s) ∧
    (∀ (q : Query) (s : Nat) (v : String), v ≠ "recent" → v ≠ "relevant" →
      Query.url {q with sortBy := v} s =
        Query.url {q with sortBy := ""} s) ∧
    (∀ (q : Query) (s : Nat),
      ("sortBy", "DD") ∈ Query.params {q with sortBy := "recent"} s ∧
      ("sortBy", "R") ∈ Query.params {q with sortBy := "relevant"} s) := by
  refine ⟨?_, ?_, ?_, ?_, ?_, ?_⟩
  · intro q s v w h
    refine url_eq_of_getters _ _ s rfl rfl rfl ?_ rfl rfl rfl rfl rfl rfl
    show lookupTable dateRange (jsToLower v) = lookupTable dateRange (jsToLower w)
    rw [h]
  · intro q s v w h
    refine url_eq_of_getters _ _ s rfl rfl rfl rfl rfl ?_ rfl rfl rfl rfl
    show lookupTable experienceRange (jsToLower v) =
      lookupTable experienceRange (jsToLower w)
    rw [h]
  · intro q s v w h
    refine url_eq_of_getters _ _ s rfl rfl rfl rfl rfl rfl rfl ?_ rfl rfl
    show lookupTable jobTypeRange (jsToLower v) = lookupTable jobTypeRange (jsToLower w)
    rw [h]
  · intro q s v w h
    refine url_eq_of_getters _ _ s rfl rfl rfl rfl rfl rfl ?_ rfl rfl rfl
    show lookupTable remoteFilterRange (jsToLower v) =
      lookupTable remoteFilterRange (jsToLower w)
    rw [h]
  · intro q s v h1 h2
    exact url_sortBy_other q s v h1 h2
  · intro q s
    constructor
    · simp [Query.params]
    · simp [Query.params]

/-- Witness for claim C7: each case-insensitive field instantiated at a
mixed-case recognized value against its lowercase canonical form, and the
case-sensitive sortBy omission instantiated at "RECENT" and "Relevant",
on the default query at start 0. -/
theorem claim_c7_witness :
    ((jsToLower "Past Month") = (jsToLower "past month") ∧
      Query.url {defaultQuery with dateSincePosted := "Past Month"} 0 =
        Query.url {defaultQuery with dateSincePosted := "past month"} 0) ∧
    ((jsToLower "Entry Level") = (jsToLower "entry level") ∧
      Query.url {defaultQuery with experienceLevel := "Entry Level"} 0 =
        Query.url {defaultQuery with experienceLevel := "entry level"} 0) ∧
    ((jsToLower "Full Time") = (jsToLower "full time") ∧
      Query.url {defaultQuery with jobType := "Full Time"} 0 =
        Query.url {defaultQuery with jobType := "full time"} 0) ∧
    ((jsToLower "Remote") = (jsToLower "remote") ∧
      Query.url {defaultQuery with remoteFilter := "Remote"} 0 =
        Query.url {defaultQuery with remoteFilter := "remote"} 0) ∧
    ("RECENT" ≠ "recent" ∧ "RECENT" ≠ "relevant" ∧
      Query.url {defaultQuery with sortBy := "RECENT"} 0 =
        Query.url {defaultQuery with sortBy := ""} 0) ∧
    ("Relevant" ≠ "recent" ∧ "Relevant" ≠ "relevant" ∧
      Query.url {defaultQuery with sortBy := "Relevant"} 0 =
        Query.url {defaultQuery with sortBy := ""} 0) :=
  ⟨⟨by decide, claim_c7.1 defaultQuery 0 "Past Month" "past month" (by decide)⟩,
   ⟨by decide, claim_c7.2.1 defaultQuery 0 "Entry Level" "entry level" (by decide)⟩,
   ⟨by decide, claim_c7.2.2.1 defaultQuery 0 "Full Time" "full time" (by decide)⟩,
   ⟨by decide, claim_c7.2.2.2.1 defaultQuery 0 "Remote" "remote" (by decide)⟩,
   ⟨by decide, by decide,
    claim_c7.2.2.2.2.1 defaultQuery 0 "RECENT" (by decide) (by decide)⟩,
   ⟨by decide, by decide,
    claim_c7.2.2.2.2.1 defaultQuery 0 "Relevant" (by decide) (by decide)⟩⟩

lemma head_dropWhile_false (p : Char → Bool) :
    ∀ (l : List Char) (d : Char) (ds : List Char),
      l.dropWhile p = d :: ds → p d = false := by
  intro l
  induction l with
  | nil => intro d ds h; simp [List.dropWhile] at h
  | cons c cs ih =>
    intro d ds h
    by_cases hc : p c
    · rw [List.dropWhile_cons_of_pos hc] at h
      exact ih d ds h
    · rw [List.dropWhile_cons_of_neg hc] at h
      injection h with h1 _
      subst h1
      simpa using hc

lemma collapseAux_notWs_prefix (r : Char) :
    ∀ (t rest : List Char), (∀ c ∈ t, isJsWs c = false) →
      collapseAux r false (t ++ rest) = t ++ collapseAux r false rest := by
  intro t
  induction t with
  | nil => intro rest _; rfl
  | cons c t ih =>
    intro rest h
    have hc : isJsWs c = false := h c (List.mem_cons_self c t)
    simp only [List.cons_append, collapseAux, hc, Bool.false_eq_true,
      if_false]
    exact congrArg (fun x => c :: x)
      (ih rest (fun x hx => h x (List.mem_cons_of_mem _ hx)))

lemma collapseAux_ws_skip (r : Char) :
    ∀ (w rest : List Char), (∀ c ∈ w, isJsWs c = true) →
      (rest = [] ∨ ∃ d ds, rest = d :: ds ∧ isJsWs d = false) →
      collapseAux r true (w ++ rest) = collapseAux r false rest := by
  intro w
  induction w with
  | nil =>
    intro rest _ hrest
    rcases hrest with rfl | ⟨d, ds, rfl, hd⟩
    · rfl
    · simp [collapseAux, hd]
  | cons c w ih =>
    intro rest h hrest
    have hc : isJsWs c = true := h c (List.mem_cons_self c w)
    simp only [List.cons_append, collapseAux, hc, if_true]
    exact ih rest (fun x hx => h x (List.mem_cons_of_mem _ hx)) hrest

set_option maxHeartbeats 2000000 in
lemma wsTokens_nil : wsTokens [] = [] := by
  rw [wsTokens]

set_option maxHeartbeats 2000000 in
lemma wsTokens_cons (c : Char) (cs : List Char) :
    wsTokens (c :: cs) =
      if isJsWs c then wsTokens cs
      else (c :: cs.takeWhile (fun x => !isJsWs x)) ::
        wsTokens (cs.dropWhile (fun x => !isJsWs x)) := by
  rw [wsTokens]

lemma wsTokens_ws_prefix :
    ∀ (w rest : List Char), (∀ c ∈ w, isJsWs c = true) →
      wsTokens (w ++ rest) = wsTokens rest := by
  intro w
  induction w with
  | nil => intro rest _; rfl
  | cons c w ih =>
    intro rest h
    have hc : isJsWs c = true := h c (List.mem_cons_self c w)
    rw [List.cons_append, wsTokens_cons]
    simp only [hc, if_true]
    exact ih rest (fun x hx => h x (List.mem_cons_of_mem _ hx))

lemma intercalate_pair (r : Char) (x y : List Char) (zs : List (List Char)) :
    List.intercalate [r] (x :: y :: zs) = x ++ r :: List.intercalate [r] (y :: zs) := by
  simp [List.intercalate, List.flatten]

lemma intercalate_one (r : Char) (x : List Char) :
    List.intercalate [r] [x] = x := by
  simp [List.intercalate]

lemma getLast?_of_suffix {l₁ l₂ : List Char} (h : l₁ <:+ l₂) (hne : l₁ ≠ []) :
    l₂.getLast? = l₁.getLast? := by
  obtain ⟨t, rfl⟩ := h
  exact List.getLast?_append_of_ne_nil t hne

lemma collapse_eq_intercalate_aux (r : Char) :
    ∀ (n : Nat) (l : List Char), l.length ≤ n →
      (∀ c, l.head? = some c → isJsWs c = false) →
      (∀ c, l.getLast? = some c → isJsWs c = false) →
      collapseAux r false l = List.intercalate [r] (wsTokens l) := by
  intro n
  induction n with
  | zero =>
    intro l hlen _ _
    have : l = [] := List.length_eq_zero.mp (Nat.le_zero.mp hlen)
    subst this
    rw [wsTokens_nil]
    rfl
  | succ n ih =>
    intro l hlen h1 h2
    match l with
    | [] =>
      rw [wsTokens_nil]
      rfl
    | c :: cs =>
      have hc : isJsWs c = false := h1 c rfl
      have hsplit : c :: cs =
          (c :: cs.takeWhile (fun x => !isJsWs x)) ++
            cs.dropWhile (fun x => !isJsWs x) := by
        rw [List.cons_append, List.takeWhile_append_dropWhile]
      have htok0 : wsTokens (c :: cs) =
          (c :: cs.takeWhile (fun x => !isJsWs x)) ::
            wsTokens (cs.dropWhile (fun x => !isJsWs x)) := by
        rw [wsTokens_cons]
        simp only [hc, Bool.false_eq_true, if_false]
      have hallt : ∀ x ∈ c :: cs.takeWhile (fun x => !isJsWs x),
          isJsWs x = false := by
        intro x hx
        rcases List.mem_cons.mp hx with rfl | hx'
        · exact hc
        · have := List.mem_takeWhile_imp hx'
          simpa using this
      have hlhs : collapseAux r false (c :: cs) =
          (c :: cs.takeWhile (fun x => !isJsWs x)) ++
            collapseAux r false (cs.dropWhile (fun x => !isJsWs x)) := by
        rw [hsplit]
        exact collapseAux_notWs_prefix r _ _ hallt
      cases hr : cs.dropWhile (fun x => !isJsWs x) with
      | nil =>
        rw [hlhs, hr, htok0, hr, wsTokens_nil, intercalate_one]
        simp [collapseAux]
      | cons d ds =>
        have hd : isJsWs d = true := by
          have := head_dropWhile_false (fun x => !isJsWs x) cs d ds hr
          simpa using this
        have hds : ds = ds.takeWhile isJsWs ++ ds.dropWhile isJsWs :=
          (List.takeWhile_append_dropWhile isJsWs ds).symm
        have hallw : ∀ x ∈ d :: ds.takeWhile isJsWs, isJsWs x = true := by
          intro x hx
          rcases List.mem_cons.mp hx with rfl | hx'
          · exact hd
          · exact List.mem_takeWhile_imp hx'
        cases hr' : ds.dropWhile isJsWs with
        | nil =>
          exfalso
          have hwsall : ∀ x ∈ d :: ds, isJsWs x = true := by
            intro x hx
            rcases List.mem_cons.mp hx with rfl | hx'
            · exact hd
            · exact List.dropWhile_eq_nil_iff.mp hr' x hx'
          have hne : (d :: ds) ≠ ([] : List Char) := by simp
          have hlast : (c :: cs).getLast? = (d :: ds).getLast? := by
            rw [hsplit, hr]
            exact List.getLast?_append_of_ne_nil _ hne
          have hmem := List.getLast_mem hne
          have hws := hwsall _ hmem
          have := h2 ((d :: ds).getLast hne)
            (by rw [hlast]; exact (List.getLast?_eq_getLast _ hne))
          rw [this] at hws
          exact Bool.false_ne_true hws
        | cons d' ds' =>
          have hd' : isJsWs d' = false :=
            head_dropWhile_false isJsWs ds d' ds' hr'
          have hcr : collapseAux r false (d :: ds) =
              r :: collapseAux r false (d' :: ds') := by
            simp only [collapseAux, hd, if_true]
            rw [hds, hr']
            exact congrArg (r :: ·)
              (collapseAux_ws_skip r _ _
                (fun x hx => List.mem_takeWhile_imp hx)
                (Or.inr ⟨d', ds', rfl, hd'⟩))
          have htokr : wsTokens (d :: ds) = wsTokens (d' :: ds') := by
            have : d :: ds = (d :: ds.takeWhile isJsWs) ++ (d' :: ds') := by
              rw [List.cons_append]
              rw [← hr', ← hds]
            rw [this]
            exact wsTokens_ws_prefix _ _ hallw
          have hlen' : (d' :: ds').length ≤ n := by
            have e1 : (d :: ds).length ≤ cs.length := by
              rw [← hr]
              exact (List.dropWhile_sublist _).length_le
            have e2 : (d' :: ds').length ≤ ds.length := by
              rw [← hr']
              exact (List.dropWhile_sublist _).length_le
            have e3 : cs.length ≤ n := by
              have := hlen
              simp only [List.length_cons] at this
              omega
            simp only [List.length_cons] at e1 e2 ⊢
            omega
          have h1' : ∀ z, (d' :: ds').head? = some z → isJsWs z = false := by
            intro z hz
            injection hz with hz
            subst hz
            exact hd'
          have h2' : ∀ z, (d' :: ds').getLast? = some z → isJsWs z = false := by
            intro z hz
            apply h2 z
            have hsuff : (d' :: ds') <:+ c :: cs := by
              refine ⟨(c :: cs.takeWhile (fun x => !isJsWs x)) ++
                (d :: ds.takeWhile isJsWs), ?_⟩
              rw [List.append_assoc, List.cons_append d, ← hr', ← hds, ← hr,
                ← hsplit]
            rw [getLast?_of_suffix hsuff (by simp)]
            exact hz
          have ihr := ih (d' :: ds') hlen' h1' h2'
          rw [hlhs, hr, htok0, hr, htokr, hcr, ihr]
          cases htt : wsTokens (d' :: ds') with
          | nil =>
            exfalso
            rw [wsTokens_cons] at htt
            simp only [hd', Bool.false_eq_true, if_false] at htt
            exact List.cons_ne_nil _ _ htt
          | cons tok toks =>
            rw [intercalate_pair]

/-- Claim C9: the keyword/location normalization stored on the `Query` —
`trim()` followed by the global replacement of whitespace runs with `"+"`
— equals the specified form: the input trimmed with every maximal run of
internal whitespace replaced by a single `"+"` character (the words of the
trimmed input joined by single `'+'` separators). -/
theorem claim_c9 (s : String) : normalizeField s = specNormalizeField s := by
  unfold normalizeField specNormalizeField
  refine congrArg String.mk ?_
  have A := head_dropWhile_false isJsWs
  refine collapse_eq_intercalate_aux '+' (jsTrimList s.data).length _ le_rfl ?_ ?_
  · intro c hcx
    unfold jsTrimList at hcx
    rw [List.head?_reverse] at hcx
    cases hB : (s.data.dropWhile isJsWs).reverse.dropWhile isJsWs with
    | nil => rw [hB] at hcx; simp at hcx
    | cons b bs =>
      have hBne : (s.data.dropWhile isJsWs).reverse.dropWhile isJsWs ≠ [] := by
        rw [hB]; simp
      have hsuff := List.dropWhile_suffix (l := (s.data.dropWhile isJsWs).reverse)
        (p := isJsWs)
      have hlast : (s.data.dropWhile isJsWs).reverse.getLast? =
          ((s.data.dropWhile isJsWs).reverse.dropWhile isJsWs).getLast? :=
        getLast?_of_suffix hsuff hBne
      rw [← hlast, List.getLast?_reverse] at hcx
      cases hA : s.data.dropWhile isJsWs with
      | nil => rw [hA] at hcx; simp at hcx
      | cons a as =>
        rw [hA] at hcx
        injection hcx with hcx
        subst hcx
        exact A s.data a as hA
  · intro c hcx
    unfold jsTrimList at hcx
    rw [List.getLast?_reverse] at hcx
    cases hB : (s.data.dropWhile isJsWs).reverse.dropWhile isJsWs with
    | nil => rw [hB] at hcx; simp at hcx
    | cons b bs =>
      rw [hB] at hcx
      injection hcx with hcx
      subst hcx
      exact A (s.data.dropWhile isJsWs).reverse b bs hB

end LinkedinJobsApi
